import Mathlib

/-!
Shallow embedding of the libSoX I/O core (src/soxio.c) and proofs about it.

Modelling conventions:
* C `unsigned`, `sox_size_t` and enum values are `Nat`; return codes are `Int`
  (`SOX_SUCCESS = 0`, `SOX_EOF = -1`).
* Sample rates (`sox_rate_t`, a C double) are modelled as exact naturals; the
  `HUGE_VAL` sentinel used in `set_output_format` becomes `Option Nat` with
  `none` standing for "still infinite".
* The tri-state option type (`SOX_OPTION_NO/YES/DEFAULT`) is `Option Bool`
  with `none` for `SOX_OPTION_DEFAULT`.
* The 0-terminated `write_rates` array is the list of its entries before the
  terminator; the 0-separated flat `write_formats` array (encoding, sizes...,
  0, ..., 0) is a list of (encoding, size-list) groups.
* `v & 0xff`, `v >> 8`, `v << 8` and `|` of disjoint byte fields on byte
  values are written `v % 256`, `v / 256`, `v * 256` and `+`, which coincide
  on the value ranges involved.
-/

namespace Soxio

/-- Return code SOX_SUCCESS. -/
def SOX_SUCCESS : Int := 0

/-- Return code SOX_EOF. -/
def SOX_EOF : Int := -1

/-- Default sample rate used when a handler lists no rates and none was
requested (SOX_DEFAULT_RATE from the library header, outside src/). -/
def SOX_DEFAULT_RATE : Nat := 48000

/-- Structural flag set of a format handler (the SOX_FILE_* bits). -/
structure HandlerFlags where
  endian : Bool      -- SOX_FILE_ENDIAN: handler is endian-flexible
  endbig : Bool      -- SOX_FILE_ENDBIG: fixed big-endian when not flexible
  bit_rev : Bool     -- SOX_FILE_BIT_REV
  nib_rev : Bool     -- SOX_FILE_NIB_REV
  chans : Bool       -- SOX_FILE_CHANS: channel count is restricted
  mono : Bool        -- SOX_FILE_MONO
  stereo : Bool      -- SOX_FILE_STEREO
  quad : Bool        -- SOX_FILE_QUAD
  rewind : Bool      -- SOX_FILE_REWIND
  nostdio : Bool     -- SOX_FILE_NOSTDIO
  phony : Bool       -- SOX_FILE_PHONY
deriving Repr, DecidableEq

/-- Signal parameters of a session (sox_signalinfo_t). -/
structure SignalInfo where
  rate : Nat
  channels : Nat
  precision : Nat
deriving Repr, DecidableEq

/-- Encoding parameters of a session (sox_encodinginfo_t); the three order
overrides are tri-state (`none` = SOX_OPTION_DEFAULT). -/
structure EncodingInfo where
  encoding : Nat
  bits_per_sample : Nat
  reverse_bytes : Option Bool
  reverse_bits : Option Bool
  reverse_nibbles : Option Bool
  opposite_endian : Bool
deriving Repr, DecidableEq

/-- Capability data of a format handler relevant to negotiation
(sox_format_handler_t): flags, the 0-terminated rate list and the
0-separated (encoding, bit-depth) capability groups. -/
structure FormatHandler where
  flags : HandlerFlags
  write_rates : Option (List Nat)
  write_formats : Option (List (Nat × List Nat))
deriving Repr, DecidableEq

/-- Resolution of the byte/bit/nibble order overrides,
from set_endianness_if_not_already_set in soxio.c.  `isBigEndian` is the
machine's SOX_IS_BIGENDIAN.  Diagnostics (sox_report calls) are side effects
only and are not modelled. -/
def set_endianness_if_not_already_set (flags : HandlerFlags) (isBigEndian : Bool)
    (e : EncodingInfo) : EncodingInfo :=
  let rb : Option Bool :=
    if e.opposite_endian then
      some (if flags.endian then (!flags.endbig) != isBigEndian else true)
    else if e.reverse_bytes = none then
      some (if flags.endian then (!flags.endbig) == isBigEndian else false)
    else e.reverse_bytes
  let rbit : Option Bool :=
    if e.reverse_bits = none then some flags.bit_rev else e.reverse_bits
  let rnib : Option Bool :=
    if e.reverse_nibbles = none then some flags.nib_rev else e.reverse_nibbles
  { e with reverse_bytes := rb, reverse_bits := rbit, reverse_nibbles := rnib }

/-- Loop guard `r < ft->signal.rate` of the rate scan, where the signal rate
has been seeded with HUGE_VAL (`none`). -/
def lt_best (r : Nat) : Option Nat → Bool
  | none => true
  | some b => r < b

/-- One iteration of the rate-fallback scan in set_output_format:
`if (r > given && r < rate) rate = r; else max = max(r, max);`. -/
def rate_scan_step (given : Nat) (st : Option Nat × Nat) (r : Nat) :
    Option Nat × Nat :=
  if given < r && lt_best r st.1 then (some r, st.2)
  else (st.1, Nat.max r st.2)

/-- Rate section of set_output_format for a handler with a rate list:
keep a listed requested rate; default a zero request to the first entry;
otherwise scan for the smallest listed rate above the request, falling back
to the running maximum when none is above. -/
def resolve_rate (rates : List Nat) (given : Nat) : Nat :=
  if given = 0 then rates.headD 0
  else if given ∈ rates then given
  else
    let st := rates.foldl (rate_scan_step given) (none, 0)
    match st.1 with
    | none => st.2
    | some b => b

/-- Channel section of set_output_format. -/
def adjust_channels (flags : HandlerFlags) (ch : Nat) : Nat :=
  if flags.chans then
    if ch = 1 && !flags.mono then (if flags.stereo then 2 else 4)
    else if ch = 2 && !flags.stereo then (if flags.quad then 4 else 1)
    else if ch = 4 && !flags.quad then (if flags.stereo then 2 else 1)
    else ch
  else Nat.max ch 1

/-- State of the bit-depth scan for a caller-given encoding (case "encoding
given" of set_output_format). -/
structure SizeScanState where
  found : Bool
  bps : Nat
  max_p : Nat
  max_p_s : Nat
deriving Repr, DecidableEq

/-- One iteration of the bit-depth scan for a given encoding. -/
def size_scan_step (prec : Nat → Nat → Nat) (e0 given_size sigprec : Nat)
    (st : SizeScanState) (s : Nat) : SizeScanState :=
  let st := if s == given_size then { st with found := true } else st
  if sigprec ≤ prec e0 s then
    if s < st.bps then { st with bps := s } else st
  else if st.max_p < prec e0 s then { st with max_p := prec e0 s, max_p_s := s }
  else st

/-- Bit-depth selection once the caller-given encoding was found in the
handler's list, from set_output_format (the branch seeding
bits_per_sample with 65). -/
def choose_size_for_encoding (prec : Nat → Nat → Nat) (sigprec e0 given_size : Nat)
    (sizes : List Nat) : Nat × Nat :=
  let st := sizes.foldl (size_scan_step prec e0 given_size sigprec)
    ⟨false, 65, 0, 0⟩
  let bps := if st.bps = 65 then st.max_p_s else st.bps
  let bps := if given_size ≠ 0 then (if st.found then given_size else bps) else bps
  (e0, bps)

/-- Scan for the group belonging to a caller-given encoding. -/
def find_entry (ws : List (Nat × List Nat)) (e0 : Nat) : Option (List Nat) :=
  match ws.find? (fun p => p.1 == e0) with
  | some p => some p.2
  | none => none

/-- Case "only a bit-depth was given": first group containing the depth wins,
else the depth is cleared. -/
def choose_encoding_for_size (ws : List (Nat × List Nat)) (bits : Nat) :
    Nat × Nat :=
  match ws.find? (fun p => p.2.contains bits) with
  | some p => (p.1, bits)
  | none => (0, 0)

/-- Case "nothing given", first pass: smallest-depth lossless encoding whose
achievable precision meets the request.  `lossless_bound` is the ordinal
SOX_ENCODING_LOSSLESS (defined outside src/). -/
def choose_lossless (prec : Nat → Nat → Nat) (sigprec lossless_bound : Nat)
    (ws : List (Nat × List Nat)) : Nat × Nat :=
  ws.foldl (fun st p =>
    p.2.foldl (fun st s =>
      if p.1 < lossless_bound ∧ sigprec ≤ prec p.1 s ∧ s < st.2 then (p.1, s)
      else st) st) (0, 65)

/-- State of the final any-encoding pass. -/
structure AnyScanState where
  enc : Nat
  bps : Nat
  max_p : Nat
  max_p_e : Nat
  max_p_s : Nat
deriving Repr, DecidableEq

/-- One iteration of the final pass's inner do-while; note the C loop also
processes the 0 terminator of each size group, hence the caller appends 0. -/
def any_scan_step (prec : Nat → Nat → Nat) (sigprec e : Nat)
    (st : AnyScanState) (s : Nat) : AnyScanState :=
  if sigprec ≤ prec e s then
    if s < st.bps then { st with enc := e, bps := s } else st
  else if st.max_p < prec e s then
    { st with max_p := prec e s, max_p_e := e, max_p_s := s }
  else st

/-- Case "nothing given", second pass: smallest depth meeting the precision
request over all encodings, else the highest-precision pair seen. -/
def choose_any (prec : Nat → Nat → Nat) (sigprec : Nat)
    (ws : List (Nat × List Nat)) (st0 : Nat × Nat) : Nat × Nat :=
  let st := ws.foldl (fun st p =>
      (p.2 ++ [0]).foldl (any_scan_step prec sigprec p.1) st)
    ⟨st0.1, st0.2, 0, 0, 0⟩
  if st.enc = 0 then (st.max_p_e, st.max_p_s) else (st.enc, st.bps)

/-- Write-side negotiation set_output_format from soxio.c.  `prec` is the
achievable-precision function sox_precision (defined outside src/), passed
as a parameter. -/
def set_output_format (prec : Nat → Nat → Nat) (lossless_bound : Nat)
    (h : FormatHandler) (sig : SignalInfo) (enc : EncodingInfo) :
    SignalInfo × EncodingInfo :=
  let rate := match h.write_rates with
    | some rates => resolve_rate rates sig.rate
    | none => if sig.rate = 0 then SOX_DEFAULT_RATE else sig.rate
  let sig1 : SignalInfo :=
    { sig with rate := rate, channels := adjust_channels h.flags sig.channels }
  match h.write_formats with
  | none => (sig1, enc)
  | some ws =>
    let p1 : Nat × Nat :=
      if enc.encoding ≠ 0 then
        match find_entry ws enc.encoding with
        | none => (0, enc.bits_per_sample)
        | some sizes =>
          choose_size_for_encoding prec sig1.precision enc.encoding
            enc.bits_per_sample sizes
      else (0, enc.bits_per_sample)
    let p2 : Nat × Nat :=
      if p1.1 = 0 ∧ p1.2 ≠ 0 then choose_encoding_for_size ws p1.2 else p1
    let p3 : Nat × Nat :=
      if p2.1 = 0 then choose_lossless prec sig1.precision lossless_bound ws
      else p2
    let p4 : Nat × Nat :=
      if p3.1 = 0 then choose_any prec sig1.precision ws p3 else p3
    ({ sig1 with precision := Nat.min sig1.precision (prec p4.1 p4.2) },
     { enc with encoding := p4.1, bits_per_sample := p4.2 })

/-! Process-wide standard-stream exclusivity (sox_globals.stdin_in_use_by /
stdout_in_use_by) as touched by sox_open_read, sox_open_write and
sox_close. -/

/-- Process-wide state: the two standard-stream owner slots of sox_globals. -/
structure SoxGlobals where
  stdin_in_use_by : Option String
  stdout_in_use_by : Option String
deriving Repr, DecidableEq

/-- Effect of sox_open_read on the globals when the path is "-" and the
handler does not have SOX_FILE_NOSTDIO: the stdin slot is check-and-set; a
failure of any later open step (`rest_ok = false`, the goto-error paths)
returns failure without touching the slot again.  Result: new globals and
whether the open succeeded. -/
def sox_open_read_stdin (g : SoxGlobals) (rest_ok : Bool) : SoxGlobals × Bool :=
  match g.stdin_in_use_by with
  | some _ => (g, false)
  | none =>
    let g1 := { g with stdin_in_use_by := some "audio input" }
    (g1, rest_ok)

/-- Effect of sox_open_write on the globals when the path is "-" and the
handler does not have SOX_FILE_NOSTDIO, mirroring sox_open_read_stdin. -/
def sox_open_write_stdout (g : SoxGlobals) (rest_ok : Bool) : SoxGlobals × Bool :=
  match g.stdout_in_use_by with
  | some _ => (g, false)
  | none =>
    let g1 := { g with stdout_in_use_by := some "audio output" }
    (g1, rest_ok)

/-- Effect of sox_close on the globals: the function closes the stream and
frees the session but never references sox_globals, so the slots are left
unchanged. -/
def sox_close_globals (g : SoxGlobals) : SoxGlobals := g

/-! Close-time finalization (sox_close). -/

/-- Hook invocations sox_close can perform. -/
inductive HookCall
  | stopread
  | stopwrite
  | startwrite
deriving Repr, DecidableEq

/-- Session data consulted by sox_close, with the outcomes of the handler
hooks and of sox_seeki supplied as parameters (those callees live outside
this file). -/
structure CloseFt where
  mode_write : Bool                -- ft->mode == 'w' (else 'r')
  rewind_flag : Bool               -- ft->handler.flags & SOX_FILE_REWIND
  olength : Nat
  length : Nat
  seekable : Bool
  has_stopread : Bool
  has_stopwrite : Bool
  has_startwrite : Bool
  stopread_rc : Int
  stopwrite_rc : Int
  startwrite_rc : Int
  seek_rc : Int                    -- result of sox_seeki(ft, 0, 0)
deriving Repr, DecidableEq

/-- Hook-dispatch portion of sox_close: which hooks run and the return code.
The unconditional resource release that follows is not modelled here. -/
def sox_close_hooks (ft : CloseFt) : Int × List HookCall :=
  if !ft.mode_write then
    if ft.has_stopread then (ft.stopread_rc, [.stopread]) else (SOX_SUCCESS, [])
  else if ft.rewind_flag then
    if ft.olength ≠ ft.length ∧ ft.seekable then
      if ft.seek_rc = SOX_SUCCESS then
        if ft.has_stopwrite then (ft.stopwrite_rc, [.stopwrite])
        else if ft.has_startwrite then (ft.startwrite_rc, [.startwrite])
        else (SOX_SUCCESS, [])
      else (ft.seek_rc, [])
    else (SOX_SUCCESS, [])
  else
    if ft.has_stopwrite then (ft.stopwrite_rc, [.stopwrite]) else (SOX_SUCCESS, [])

/-! Content sniffing (detect_magic). -/

/-- One row of the MAGIC table: a secondary byte range (offset p2, literal
d2) and a primary byte range (offset p1, literal d1); the lengths l2/l1 of
the C macro are the literal lengths.  The literals are byte lists so that C
escapes need no reinterpretation. -/
structure MagicRule where
  name : String
  p2 : Nat
  d2 : List Nat
  p1 : Nat
  d1 : List Nat
deriving Repr, DecidableEq

/-- Bytes of `data` at offset `p` equal the literal `d` (the memcmp of the
MAGIC macro). -/
def matchAt (data : List Nat) (p : Nat) (d : List Nat) : Bool :=
  (data.drop p).take d.length == d

/-- One MAGIC rule applies: `len >= p1 + l1` and both memcmp calls agree. -/
def rule_matches (data : List Nat) (r : MagicRule) : Bool :=
  if r.p1 + r.d1.length ≤ data.length then
    matchAt data r.p1 r.d1 && matchAt data r.p2 r.d2
  else false

def rule_voc : MagicRule :=
  ⟨"voc", 0, [], 0, [67,114,101,97,116,105,118,101,32,86,111,105,99,101,32,70,105,108,101,26]⟩
def rule_smp : MagicRule :=
  ⟨"smp", 0, [], 0, [83,79,85,78,68,32,83,65,77,80,76,69,32,68,65,84,65]⟩
def rule_wve : MagicRule :=
  ⟨"wve", 0, [], 0, [65,76,97,119,83,111,117,110,100,70,105,108,101,42,42]⟩
def rule_amr_wb : MagicRule := ⟨"amr-wb", 0, [], 0, [35,33,65,77,82,45,87,66,10]⟩
def rule_prc : MagicRule := ⟨"prc", 0, [], 0, [55,0,0,16,109,0,0,16]⟩
def rule_sph : MagicRule := ⟨"sph", 0, [], 0, [78,73,83,84,95,49,65]⟩
def rule_amr_nb : MagicRule := ⟨"amr-nb", 0, [], 0, [35,33,65,77,82,10]⟩
def rule_txw : MagicRule := ⟨"txw", 0, [], 0, [76,77,56,57,53,51]⟩
def rule_sndt : MagicRule := ⟨"sndt", 0, [], 0, [83,79,85,78,68,26]⟩
def rule_vorbis : MagicRule :=
  ⟨"vorbis", 0, [79,103,103,83], 29, [118,111,114,98,105,115]⟩
def rule_speex : MagicRule := ⟨"speex", 0, [79,103,103,83], 28, [83,112,101,101,120]⟩
def rule_hcom : MagicRule := ⟨"hcom", 65, [70,83,83,68], 128, [72,67,79,77]⟩
def rule_wav_riff : MagicRule := ⟨"wav", 0, [82,73,70,70], 8, [87,65,86,69]⟩
def rule_wav_rifx : MagicRule := ⟨"wav", 0, [82,73,70,88], 8, [87,65,86,69]⟩
def rule_aiff : MagicRule := ⟨"aiff", 0, [70,79,82,77], 8, [65,73,70,70]⟩
def rule_aifc : MagicRule := ⟨"aifc", 0, [70,79,82,77], 8, [65,73,70,67]⟩
def rule_8svx : MagicRule := ⟨"8svx", 0, [70,79,82,77], 8, [56,83,86,88]⟩
def rule_maud : MagicRule := ⟨"maud", 0, [70,79,82,77], 8, [77,65,85,68]⟩
def rule_xa1 : MagicRule := ⟨"xa", 0, [], 0, [88,65,0,0]⟩
def rule_xa2 : MagicRule := ⟨"xa", 0, [], 0, [88,65,73,0]⟩
def rule_xa3 : MagicRule := ⟨"xa", 0, [], 0, [88,65,74,0]⟩
def rule_au1 : MagicRule := ⟨"au", 0, [], 0, [46,115,110,100]⟩
def rule_au2 : MagicRule := ⟨"au", 0, [], 0, [100,110,115,46]⟩
def rule_au3 : MagicRule := ⟨"au", 0, [], 0, [0,100,115,46]⟩
def rule_au4 : MagicRule := ⟨"au", 0, [], 0, [46,115,100,0]⟩
def rule_flac : MagicRule := ⟨"flac", 0, [], 0, [102,76,97,67]⟩
def rule_avr : MagicRule := ⟨"avr", 0, [], 0, [50,66,73,84]⟩
def rule_caf : MagicRule := ⟨"caf", 0, [], 0, [99,97,102,102]⟩
def rule_paf : MagicRule := ⟨"paf", 0, [], 0, [32,112,97,102]⟩
def rule_sf1 : MagicRule := ⟨"sf", 0, [], 0, [100,163,1,0]⟩
def rule_sf2 : MagicRule := ⟨"sf", 0, [], 0, [0,1,163,100]⟩
def rule_sf3 : MagicRule := ⟨"sf", 0, [], 0, [100,163,2,0]⟩
def rule_sf4 : MagicRule := ⟨"sf", 0, [], 0, [0,2,163,100]⟩
def rule_sf5 : MagicRule := ⟨"sf", 0, [], 0, [100,163,3,0]⟩
def rule_sf6 : MagicRule := ⟨"sf", 0, [], 0, [0,3,163,100]⟩
def rule_sf7 : MagicRule := ⟨"sf", 0, [], 0, [100,163,4,0]⟩

/-- Rule applied only when the extension hint is "snd": the C literal ""
with l2 = 1 compares one byte (the NUL terminator) at offset 7, and the
literal with l1 = 2 compares two NUL bytes at offset 0. -/
def rule_sndr : MagicRule := ⟨"sndr", 7, [0], 0, [0,0]⟩

/-- Unconditional MAGIC rules of detect_magic in their source order. -/
def magic_table : List MagicRule :=
  [rule_voc, rule_smp, rule_wve, rule_amr_wb, rule_prc, rule_sph, rule_amr_nb,
   rule_txw, rule_sndt, rule_vorbis, rule_speex, rule_hcom, rule_wav_riff,
   rule_wav_rifx, rule_aiff, rule_aifc, rule_8svx, rule_maud, rule_xa1,
   rule_xa2, rule_xa3, rule_au1, rule_au2, rule_au3, rule_au4, rule_flac,
   rule_avr, rule_caf, rule_paf, rule_sf1, rule_sf2, rule_sf3, rule_sf4,
   rule_sf5, rule_sf6, rule_sf7]

/-- Content sniffer detect_magic: `data` is the prefix actually read (up to
256 bytes), `ext` the extension hint; the first matching rule in table order
names the format, with the sndr rule tried last and only under a
case-insensitive "snd" hint. -/
def detect_magic (data : List Nat) (ext : Option String) : Option String :=
  match magic_table.find? (fun r => rule_matches data r) with
  | some r => some r.name
  | none =>
    match ext with
    | some e =>
      if e.toLower = "snd" && rule_matches data rule_sndr then some "sndr"
      else none
    | none => none

/-! Typed stream codec: order twiddling, 3-byte pack/unpack, and the
buffered read/write families.  The buffer-filling C functions are modelled
as functions from element lists to byte lists and back; the returned count
of the C function is the length of the produced list.  Float and double
elements are modelled by their 32- and 64-bit representations, since the
codec only moves and permutes their bytes. -/

/-- Modelled from the spec: the cswap table (defined outside this file)
reverses the bit order of an 8-bit value. -/
def cswap (b : Nat) : Nat :=
  (b / 128 % 2) + 2 * (b / 64 % 2) + 4 * (b / 32 % 2) + 8 * (b / 16 % 2) +
  16 * (b / 8 % 2) + 32 * (b / 4 % 2) + 64 * (b / 2 % 2) + 128 * (b % 2)

/-- Nibble swap of TWIDDLE_BYTE: `((ub & 15) << 4) | (ub >> 4)`. -/
def nibble_swap (b : Nat) : Nat := (b % 16) * 16 + b / 16

/-- TWIDDLE_BYTE: bit reversal via cswap when reverse_bits, then nibble
swap when reverse_nibbles. -/
def twiddle_byte (rbits rnibs : Bool) (b : Nat) : Nat :=
  let b1 := if rbits then cswap b else b
  if rnibs then nibble_swap b1 else b1

/-- Little-endian memory image of an n-byte word. -/
def bytesOfWordLE : Nat → Nat → List Nat
  | 0, _ => []
  | n + 1, w => (w % 256) :: bytesOfWordLE n (w / 256)

/-- Word value of a little-endian memory image. -/
def wordOfBytesLE : List Nat → Nat
  | [] => 0
  | b :: bs => b + 256 * wordOfBytesLE bs

/-- Reversal of an n-byte word's bytes. -/
def byte_reverse (n w : Nat) : Nat :=
  wordOfBytesLE ((bytesOfWordLE n w).reverse)

/-- Modelled from the spec: sox_swapw (defined outside this file) byte-swaps
a 16-bit word. -/
def sox_swapw (w : Nat) : Nat := byte_reverse 2 w

/-- Modelled from the spec: sox_swapdw (defined outside this file) byte-swaps
a 32-bit word; sox_swapf does the same to a float's 32-bit representation. -/
def sox_swapdw (w : Nat) : Nat := byte_reverse 4 w

/-- Modelled from the spec: sox_swapdf (defined outside this file) byte-swaps
a double's 64-bit representation. -/
def sox_swapdf (w : Nat) : Nat := byte_reverse 8 w

/-- Memory image of an n-byte word in machine byte order (`big` is
SOX_IS_BIGENDIAN). -/
def wordToBytes (big : Bool) (n w : Nat) : List Nat :=
  let l := bytesOfWordLE n w
  if big then l.reverse else l

/-- Word value read from an n-byte memory image in machine byte order. -/
def wordFromBytes (big : Bool) (l : List Nat) : Nat :=
  wordOfBytesLE (if big then l.reverse else l)

/-- Serialization of a whole element buffer (the single sox_writebuf call of
each WRITE_FUNC). -/
def write_buf (enc : Nat → List Nat) : List Nat → List Nat
  | [] => []
  | v :: vs => enc v ++ write_buf enc vs

/-- Deserialization of as many whole elements as the byte stream holds (the
`nread = sox_readbuf(...) / size` step of each READ_FUNC). -/
def read_buf (dec : List Nat → Nat) (size : Nat) (data : List Nat) : List Nat :=
  if h : 0 < size ∧ size ≤ data.length then
    dec (data.take size) :: read_buf dec size (data.drop size)
  else []
  termination_by data.length
  decreasing_by
    simp only [List.length_drop]
    omega

/-- sox_write_b_buf: TWIDDLE_BYTE each element, then emit the bytes. -/
def sox_write_b_buf (rbits rnibs : Bool) (buf : List Nat) : List Nat :=
  write_buf (fun v => [twiddle_byte rbits rnibs v]) buf

/-- sox_read_b_buf: read the bytes, then TWIDDLE_BYTE each element. -/
def sox_read_b_buf (rbits rnibs : Bool) (data : List Nat) : List Nat :=
  read_buf (fun p => twiddle_byte rbits rnibs (p.headD 0)) 1 data

/-- sox_write_w_buf: TWIDDLE_WORD (sox_swapw when reverse_bytes), then emit
the word's machine-order bytes. -/
def sox_write_w_buf (big rb : Bool) (buf : List Nat) : List Nat :=
  write_buf (fun v => wordToBytes big 2 (if rb then sox_swapw v else v)) buf

/-- sox_read_w_buf: read machine-order words, then TWIDDLE_WORD. -/
def sox_read_w_buf (big rb : Bool) (data : List Nat) : List Nat :=
  read_buf (fun p => let w := wordFromBytes big p;
    if rb then sox_swapw w else w) 2 data

/-- sox_pack3: emit a 24-bit value as 3 bytes, little-endian when
`reverse_bytes == SOX_IS_BIGENDIAN` (the parameter), else big-endian. -/
def sox_pack3 (rb_eq_big : Bool) (v : Nat) : List Nat :=
  if rb_eq_big then [v % 256, v / 256 % 256, v / 65536 % 256]
  else [v / 65536 % 256, v / 256 % 256, v % 256]

/-- sox_unpack3: reassemble a 24-bit value from 3 bytes under the same
byte-order selection. -/
def sox_unpack3 (rb_eq_big : Bool) (p : List Nat) : Nat :=
  if rb_eq_big then p.getD 0 0 + p.getD 1 0 * 256 + p.getD 2 0 * 65536
  else p.getD 2 0 + p.getD 1 0 * 256 + p.getD 0 0 * 65536

/-- sox_write_3_buf (WRITE_FUNC_PACK): sox_pack3 each element; the twiddle
argument of the macro is unused. -/
def sox_write_3_buf (rb_eq_big : Bool) (buf : List Nat) : List Nat :=
  write_buf (sox_pack3 rb_eq_big) buf

/-- sox_read_3_buf (READ_FUNC_UNPACK): sox_unpack3 each 3-byte group. -/
def sox_read_3_buf (rb_eq_big : Bool) (data : List Nat) : List Nat :=
  read_buf (sox_unpack3 rb_eq_big) 3 data

/-- sox_write_dw_buf. -/
def sox_write_dw_buf (big rb : Bool) (buf : List Nat) : List Nat :=
  write_buf (fun v => wordToBytes big 4 (if rb then sox_swapdw v else v)) buf

/-- sox_read_dw_buf. -/
def sox_read_dw_buf (big rb : Bool) (data : List Nat) : List Nat :=
  read_buf (fun p => let w := wordFromBytes big p;
    if rb then sox_swapdw w else w) 4 data

/-- sox_write_f_buf on 32-bit float representations (TWIDDLE_FLOAT is a
byte swap of the representation). -/
def sox_write_f_buf (big rb : Bool) (buf : List Nat) : List Nat :=
  write_buf (fun v => wordToBytes big 4 (if rb then sox_swapdw v else v)) buf

/-- sox_read_f_buf on 32-bit float representations. -/
def sox_read_f_buf (big rb : Bool) (data : List Nat) : List Nat :=
  read_buf (fun p => let w := wordFromBytes big p;
    if rb then sox_swapdw w else w) 4 data

/-- sox_write_df_buf on 64-bit double representations. -/
def sox_write_df_buf (big rb : Bool) (buf : List Nat) : List Nat :=
  write_buf (fun v => wordToBytes big 8 (if rb then sox_swapdf v else v)) buf

/-- sox_read_df_buf on 64-bit double representations. -/
def sox_read_df_buf (big rb : Bool) (data : List Nat) : List Nat :=
  read_buf (fun p => let w := wordFromBytes big p;
    if rb then sox_swapdf w else w) 8 data

/-! Single-element read wrappers (READ1_FUNC) and sox_read/sox_write. -/

/-- Session error state: sox_errno and sox_errstr. -/
structure ErrState where
  sox_errno : Int
  sox_errstr : String
deriving Repr, DecidableEq

/-- Modelled from the spec: the sox_error test (defined outside this file)
reports whether the session already carries an error, i.e. sox_errno is not
SOX_SUCCESS. -/
def sox_error (e : ErrState) : Bool := e.sox_errno != SOX_SUCCESS

/-- READ1_FUNC wrapper body shared by sox_readb..sox_readdf: `nread` is the
element count returned by the width's buffer read for a request of one
element, `os_errno` the C errno captured by sox_fail_errno.  Returns the
status and the updated error state. -/
def read1_func (nread : Nat) (os_errno : Int) (e : ErrState) : Int × ErrState :=
  if nread = 1 then (SOX_SUCCESS, e)
  else (SOX_EOF,
    if sox_error e then e else { sox_errno := os_errno, sox_errstr := "premature EOF" })

/-- sox_readchars: same shape, on a byte count. -/
def sox_readchars (nbytes len : Nat) (os_errno : Int) (e : ErrState) :
    Int × ErrState :=
  if nbytes = len then (SOX_SUCCESS, e)
  else (SOX_EOF,
    if sox_error e then e else { sox_errno := os_errno, sox_errstr := "premature EOF" })

/-- sox_read: the handler's read callback (absent means 0 elements) is
clamped so the caller never sees more than it asked for. -/
def sox_read (read_cb : Option (Nat → Nat)) (len : Nat) : Nat :=
  let actual := match read_cb with
    | some f => f len
    | none => 0
  if len < actual then 0 else actual

/-! Concrete fixtures used by witnesses. -/

/-- Handler flag set with every flag clear. -/
def ex_flags : HandlerFlags :=
  ⟨false, false, false, false, false, false, false, false, false, false, false⟩

/-- Caller encoding request with everything unset. -/
def ex_enc : EncodingInfo := ⟨0, 0, none, none, none, false⟩

/-- Handler whose rate list is the spec's example list. -/
def ex_rates_handler : FormatHandler :=
  ⟨ex_flags, some [8000, 44100, 48000], none⟩

/-- A 132-byte input that carries the RIFF/WAVE signature and also the hcom
signature (FSSD at offset 65, HCOM at offset 128). -/
def hcom_trap : List Nat :=
  [82, 73, 70, 70] ++ [0, 0, 0, 0] ++ [87, 65, 86, 69] ++
  List.replicate 53 0 ++ [70, 83, 83, 68] ++ List.replicate 59 0 ++
  [72, 67, 79, 77]

/-! Theorems. -/

/-- Computation of the resolved rate of set_output_format: the later
negotiation steps do not touch it. -/
theorem set_output_format_rate (prec : Nat → Nat → Nat) (lb : Nat)
    (h : FormatHandler) (sig : SignalInfo) (enc : EncodingInfo) :
    (set_output_format prec lb h sig enc).1.rate =
      match h.write_rates with
      | some rates => resolve_rate rates sig.rate
      | none => if sig.rate = 0 then SOX_DEFAULT_RATE else sig.rate := by
  unfold set_output_format
  cases hwf : h.write_formats <;> cases hr : h.write_rates <;> simp [hwf, hr]

/-- Computation of the resolved channel count of set_output_format. -/
theorem set_output_format_channels (prec : Nat → Nat → Nat) (lb : Nat)
    (h : FormatHandler) (sig : SignalInfo) (enc : EncodingInfo) :
    (set_output_format prec lb h sig enc).1.channels =
      adjust_channels h.flags sig.channels := by
  unfold set_output_format
  cases hwf : h.write_formats <;> simp [hwf]

/-- C7: for every combination of handler flags, machine endianness and
caller override settings (tri-states included, and the opposite-of-native
request), set_endianness_if_not_already_set leaves reverse_bytes,
reverse_bits and reverse_nibbles each with a definite value: none of the
three remains in the default/unset state. -/
theorem c7_order_fully_resolved (flags : HandlerFlags) (isBig : Bool)
    (e : EncodingInfo) :
    (set_endianness_if_not_already_set flags isBig e).reverse_bytes ≠ none ∧
    (set_endianness_if_not_already_set flags isBig e).reverse_bits ≠ none ∧
    (set_endianness_if_not_already_set flags isBig e).reverse_nibbles ≠ none := by
  obtain ⟨enc, bits, rb, rbit, rnib, opp⟩ := e
  refine ⟨?_, ?_, ?_⟩
  · cases opp <;> cases rb <;> simp [set_endianness_if_not_already_set]
  · cases rbit <;> simp [set_endianness_if_not_already_set]
  · cases rnib <;> simp [set_endianness_if_not_already_set]

/-- C2: whenever the handler publishes an (encoding, bit-depth) capability
list, the precision put into the session by set_output_format is at most the
achievable precision sox_precision of the resolved (encoding,
bits_per_sample) pair, for any requested precision and any achievable-
precision function. -/
theorem c2_precision_floor (prec : Nat → Nat → Nat) (lb : Nat)
    (h : FormatHandler) (sig : SignalInfo) (enc : EncodingInfo)
    (ws : List (Nat × List Nat)) (hw : h.write_formats = some ws) :
    (set_output_format prec lb h sig enc).1.precision ≤
      prec (set_output_format prec lb h sig enc).2.encoding
        (set_output_format prec lb h sig enc).2.bits_per_sample := by
  unfold set_output_format
  rw [hw]
  simp only
  exact Nat.min_le_right _ _

/-- Witness for c2_precision_floor at a concrete handler. -/
theorem c2_precision_floor_witness :
    (set_output_format (fun _ s => s) 9 ⟨ex_flags, none, some [(1, [8, 16])]⟩
        ⟨44100, 2, 16⟩ ex_enc).1.precision ≤
      (fun _ s => s)
        (set_output_format (fun _ s => s) 9 ⟨ex_flags, none, some [(1, [8, 16])]⟩
          ⟨44100, 2, 16⟩ ex_enc).2.encoding
        (set_output_format (fun _ s => s) 9 ⟨ex_flags, none, some [(1, [8, 16])]⟩
          ⟨44100, 2, 16⟩ ex_enc).2.bits_per_sample :=
  c2_precision_floor (fun _ s => s) 9 ⟨ex_flags, none, some [(1, [8, 16])]⟩
    ⟨44100, 2, 16⟩ ex_enc [(1, [8, 16])] rfl

/-- Counterexample to C3: a channel-restricted handler that supports both
stereo and quad but not mono maps a mono request to 2 channels, not to the
4 the claim asserts for quad-capable handlers. -/
theorem c3_counterexample :
    (set_output_format (fun _ s => s) 0
        ⟨⟨false, false, false, false, true, false, true, true, false, false, false⟩,
         none, none⟩ ⟨8000, 1, 16⟩ ex_enc).1.channels = 2 ∧ (2 : Nat) ≠ 4 := by
  decide

/-- C3 as amended: under the channel-constraint flag, a mono request without
mono support resolves to 2 when stereo is supported, else 4; a stereo
request without stereo support resolves to 4 when quad is supported, else 1;
a quad request without quad support resolves to 2 when stereo is supported,
else 1. -/
theorem c3_channel_fixup (prec : Nat → Nat → Nat) (lb : Nat)
    (h : FormatHandler) (sig : SignalInfo) (enc : EncodingInfo)
    (hc : h.flags.chans = true) :
    (sig.channels = 1 → h.flags.mono = false →
      (set_output_format prec lb h sig enc).1.channels =
        if h.flags.stereo then 2 else 4) ∧
    (sig.channels = 2 → h.flags.stereo = false →
      (set_output_format prec lb h sig enc).1.channels =
        if h.flags.quad then 4 else 1) ∧
    (sig.channels = 4 → h.flags.quad = false →
      (set_output_format prec lb h sig enc).1.channels =
        if h.flags.stereo then 2 else 1) := by
  rw [set_output_format_channels]
  unfold adjust_channels
  refine ⟨?_, ?_, ?_⟩ <;> intro h1 h2 <;> rw [h1] <;> simp [hc, h2]

/-- Witness for c3_channel_fixup: quad-only handler maps mono to 4. -/
theorem c3_channel_fixup_witness :
    (set_output_format (fun _ s => s) 0
        ⟨⟨false, false, false, false, true, false, false, true, false, false, false⟩,
         none, none⟩ ⟨8000, 1, 16⟩ ex_enc).1.channels = 4 := by
  have h := (c3_channel_fixup (fun _ s => s) 0
    ⟨⟨false, false, false, false, true, false, false, true, false, false, false⟩,
     none, none⟩ ⟨8000, 1, 16⟩ ex_enc rfl).1 rfl rfl
  simpa using h

/-- Counterexample to C4: starting from free slots, opening "-" for read
succeeds and claims the stdin slot, sox_close leaves the globals exactly as
they were, and a subsequent open of "-" for read fails; moreover an open
whose later steps fail also leaves the slot claimed. -/
theorem c4_counterexample :
    (sox_open_read_stdin ⟨none, none⟩ true).2 = true ∧
    sox_close_globals (sox_open_read_stdin ⟨none, none⟩ true).1 =
      (sox_open_read_stdin ⟨none, none⟩ true).1 ∧
    (sox_open_read_stdin
      (sox_close_globals (sox_open_read_stdin ⟨none, none⟩ true).1) true).2 =
      false ∧
    (sox_open_read_stdin ⟨none, none⟩ false).2 = false ∧
    (sox_open_read_stdin ⟨none, none⟩ false).1.stdin_in_use_by =
      some "audio input" :=
  ⟨rfl, rfl, rfl, rfl, rfl⟩

/-- C4 as amended: sox_close never clears the standard-stream slots, and
neither does a failed open: once an open of "-" has claimed a slot it stays
claimed, so any subsequent open of "-" in the same mode fails. -/
theorem c4_slots_never_cleared (g : SoxGlobals) (ok : Bool) :
    sox_close_globals g = g ∧
    (g.stdin_in_use_by = none →
      (sox_open_read_stdin g ok).1.stdin_in_use_by = some "audio input") ∧
    ((sox_open_read_stdin g ok).1.stdin_in_use_by ≠ none →
      (sox_open_read_stdin
        (sox_close_globals (sox_open_read_stdin g ok).1) true).2 = false) ∧
    (g.stdout_in_use_by = none →
      (sox_open_write_stdout g ok).1.stdout_in_use_by = some "audio output") ∧
    ((sox_open_write_stdout g ok).1.stdout_in_use_by ≠ none →
      (sox_open_write_stdout
        (sox_close_globals (sox_open_write_stdout g ok).1) true).2 = false) := by
  obtain ⟨si, so⟩ := g
  refine ⟨rfl, ?_, ?_, ?_, ?_⟩ <;> cases si <;> cases so <;>
    simp [sox_open_read_stdin, sox_open_write_stdout, sox_close_globals]

/-- Witness for c4_slots_never_cleared at free slots. -/
theorem c4_slots_never_cleared_witness :
    (sox_open_read_stdin (⟨none, none⟩ : SoxGlobals) true).1.stdin_in_use_by =
      some "audio input" ∧
    (sox_open_read_stdin
      (sox_close_globals
        (sox_open_read_stdin (⟨none, none⟩ : SoxGlobals) true).1) true).2 =
      false := by
  have h := c4_slots_never_cleared ⟨none, none⟩ true
  exact ⟨h.2.1 rfl, h.2.2.1 (by decide)⟩

/-- Counterexample to C5: a write session whose handler has the rewind flag
but whose observed length equals the declared length invokes no hook at all,
although a stop-write hook is present. -/
theorem c5_counterexample :
    (sox_close_hooks ⟨true, true, 5, 5, true, false, true, true, 0, 7, 8, 0⟩).2 =
      [] ∧
    HookCall.stopwrite ∉
      (sox_close_hooks ⟨true, true, 5, 5, true, false, true, true, 0, 7, 8, 0⟩).2 := by
  decide

/-- C5 as amended: on closing a write session, when the handler has the
rewind flag, the lengths differ, the stream is seekable and the rewind seek
succeeds, the stop-write hook runs (or start-write when there is none);
when the handler lacks the rewind flag, stop-write runs directly when
present; in the remaining rewind-flag cases (matching lengths, unseekable
stream, or failed seek) no hook runs at all. -/
theorem c5_close_write_dispatch (ft : CloseFt) (hw : ft.mode_write = true) :
    (ft.rewind_flag = true → ft.olength ≠ ft.length → ft.seekable = true →
      ft.seek_rc = SOX_SUCCESS →
      sox_close_hooks ft =
        (if ft.has_stopwrite then (ft.stopwrite_rc, [HookCall.stopwrite])
         else if ft.has_startwrite then (ft.startwrite_rc, [HookCall.startwrite])
         else (SOX_SUCCESS, []))) ∧
    (ft.rewind_flag = false →
      sox_close_hooks ft =
        (if ft.has_stopwrite then (ft.stopwrite_rc, [HookCall.stopwrite])
         else (SOX_SUCCESS, []))) ∧
    (ft.rewind_flag = true → (ft.olength = ft.length ∨ ft.seekable = false) →
      sox_close_hooks ft = (SOX_SUCCESS, [])) ∧
    (ft.rewind_flag = true → ft.olength ≠ ft.length → ft.seekable = true →
      ft.seek_rc ≠ SOX_SUCCESS →
      sox_close_hooks ft = (ft.seek_rc, [])) := by
  unfold sox_close_hooks
  refine ⟨?_, ?_, ?_, ?_⟩
  · intro h1 h2 h3 h4
    simp [hw, h1, h2, h3, h4]
  · intro h1
    simp [hw, h1]
  · intro h1 h2
    rcases h2 with h2 | h2 <;> simp [hw, h1, h2]
  · intro h1 h2 h3 h4
    simp [hw, h1, h2, h3, h4]

/-- Witness for c5_close_write_dispatch: rewind handler with differing
lengths, a seekable stream and a successful seek invokes stop-write. -/
theorem c5_close_write_dispatch_witness :
    sox_close_hooks ⟨true, true, 6, 5, true, false, true, true, 0, 7, 8, 0⟩ =
      (7, [HookCall.stopwrite]) := by
  have h := (c5_close_write_dispatch
    ⟨true, true, 6, 5, true, false, true, true, 0, 7, 8, 0⟩ rfl).1
    rfl (by decide) rfl rfl
  simpa using h

/-- C9: a single-element read wrapper succeeds exactly when one element was
transferred; on a short transfer it returns SOX_EOF and, when the session
had no prior error, records the premature-EOF error, while a session already
in error keeps its original error. -/
theorem c9_read1_wrapper (nread : Nat) (os_errno : Int) (e : ErrState) :
    ((read1_func nread os_errno e).1 = SOX_SUCCESS ↔ nread = 1) ∧
    (nread = 0 →
      (read1_func nread os_errno e).1 = SOX_EOF ∧
      (sox_error e = false →
        (read1_func nread os_errno e).2 =
          ⟨os_errno, "premature EOF"⟩) ∧
      (sox_error e = true → (read1_func nread os_errno e).2 = e)) := by
  refine ⟨⟨?_, ?_⟩, ?_⟩
  · intro h
    by_contra hn
    simp only [read1_func, if_neg hn] at h
    simp [SOX_EOF, SOX_SUCCESS] at h
  · intro h
    simp [read1_func, h]
  · rintro rfl
    refine ⟨by simp [read1_func], ?_, ?_⟩
    · intro he
      simp [read1_func, he]
    · intro he
      simp [read1_func, he]

/-- Witness for c9_read1_wrapper on an errorless session hitting EOF. -/
theorem c9_read1_wrapper_witness :
    (read1_func 0 5 ⟨0, ""⟩).1 = SOX_EOF ∧
    (read1_func 0 5 ⟨0, ""⟩).2 = ⟨5, "premature EOF"⟩ := by
  have h := (c9_read1_wrapper 0 5 ⟨0, ""⟩).2 rfl
  exact ⟨h.1, h.2.1 (by decide)⟩

/-- C10: sox_read never returns more than the requested element count; with
no read callback it returns 0, and a callback reporting more than requested
is clamped to 0. -/
theorem c10_read_clamped (read_cb : Option (Nat → Nat)) (len : Nat) :
    sox_read read_cb len ≤ len ∧
    (read_cb = none → sox_read read_cb len = 0) ∧
    (∀ f, read_cb = some f → len < f len → sox_read read_cb len = 0) := by
  refine ⟨?_, ?_, ?_⟩
  · cases read_cb with
    | none => simp [sox_read]
    | some f =>
      simp only [sox_read]
      split <;> omega
  · rintro rfl
    simp [sox_read]
  · rintro f rfl hf
    simp [sox_read, hf]

/-- Witness for c10_read_clamped: an over-reporting callback yields 0, as
does an absent one. -/
theorem c10_read_clamped_witness :
    sox_read (some fun n => n + 5) 3 = 0 ∧ sox_read none 3 = 0 :=
  ⟨(c10_read_clamped (some fun n => n + 5) 3).2.2 _ rfl (by decide),
   (c10_read_clamped none 3).2.1 rfl⟩

/-- When the rate scan ends with the HUGE_VAL sentinel still in place, it
started with it and saw no rate above the request. -/
theorem rate_scan_fst_none (given : Nat) :
    ∀ (l : List Nat) (st : Option Nat × Nat),
      (l.foldl (rate_scan_step given) st).1 = none →
      st.1 = none ∧ ∀ r ∈ l, ¬ given < r := by
  intro l
  induction l with
  | nil => intro st h; exact ⟨h, by simp⟩
  | cons r t ih =>
    intro st h
    rw [List.foldl_cons] at h
    obtain ⟨h1, h2⟩ := ih _ h
    unfold rate_scan_step at h1
    split at h1
    next hcond => simp at h1
    next hcond =>
      refine ⟨h1, ?_⟩
      intro x hx
      rcases List.mem_cons.mp hx with rfl | hx2
      · intro hgx
        have h1b : st.1 = none := h1
        exact hcond (by simp [hgx, h1b, lt_best])
      · exact h2 x hx2

/-- The candidate held by the rate scan never exceeds any rate above the
request, nor the candidate it started from. -/
theorem rate_scan_fst_le (given : Nat) :
    ∀ (l : List Nat) (st : Option Nat × Nat) (x : Nat),
      (l.foldl (rate_scan_step given) st).1 = some x →
      (∀ r ∈ l, given < r → x ≤ r) ∧ (∀ y, st.1 = some y → x ≤ y) := by
  intro l
  induction l with
  | nil =>
    intro st x h
    rw [List.foldl_nil] at h
    refine ⟨by simp, ?_⟩
    intro y hy
    rw [h] at hy
    exact le_of_eq (Option.some.inj hy)
  | cons r t ih =>
    intro st x h
    rw [List.foldl_cons] at h
    obtain ⟨ht, hstep⟩ := ih _ _ h
    constructor
    · intro a ha hga
      rcases List.mem_cons.mp ha with rfl | ha2
      · by_cases hc : (decide (given < a) && lt_best a st.1) = true
        · refine hstep a ?_
          unfold rate_scan_step
          rw [if_pos hc]
        · have hlt : lt_best a st.1 = false := by
            cases hlb : lt_best a st.1
            · rfl
            · exact absurd (by simp [hga, hlb]) hc
          cases hst : st.1 with
          | none => rw [hst] at hlt; simp [lt_best] at hlt
          | some b =>
            rw [hst] at hlt
            simp only [lt_best, decide_eq_false_iff_not, not_lt] at hlt
            have hxb : x ≤ b := by
              refine hstep b ?_
              unfold rate_scan_step
              rw [if_neg hc]
              exact hst
            omega
      · exact ht a ha2 hga
    · intro y hy
      by_cases hc : (decide (given < r) && lt_best r st.1) = true
      · have hxr : x ≤ r := by
          refine hstep r ?_
          unfold rate_scan_step
          rw [if_pos hc]
        have hc2 := hc
        simp only [Bool.and_eq_true, decide_eq_true_eq] at hc2
        have hlb : lt_best r st.1 = true := hc2.2
        rw [hy] at hlb
        simp only [lt_best, decide_eq_true_eq] at hlb
        omega
      · refine hstep y ?_
        unfold rate_scan_step
        rw [if_neg hc]
        exact hy

/-- The candidate held by the rate scan is the one it started from, or a
listed rate above the request. -/
theorem rate_scan_fst_mem (given : Nat) :
    ∀ (l : List Nat) (st : Option Nat × Nat) (x : Nat),
      (l.foldl (rate_scan_step given) st).1 = some x →
      st.1 = some x ∨ (x ∈ l ∧ given < x) := by
  intro l
  induction l with
  | nil => intro st x h; exact Or.inl h
  | cons r t ih =>
    intro st x h
    rw [List.foldl_cons] at h
    rcases ih _ _ h with hstep | hmem
    · by_cases hc : (decide (given < r) && lt_best r st.1) = true
      · have hr : (rate_scan_step given st r).1 = some r := by
          unfold rate_scan_step
          rw [if_pos hc]
        rw [hr] at hstep
        obtain rfl : r = x := Option.some.inj hstep
        refine Or.inr ⟨List.mem_cons_self _ _, ?_⟩
        have hc2 := hc
        simp only [Bool.and_eq_true, decide_eq_true_eq] at hc2
        exact hc2.1
      · left
        have hr : (rate_scan_step given st r).1 = st.1 := by
          unfold rate_scan_step
          rw [if_neg hc]
        rw [hr] at hstep
        exact hstep
    · exact Or.inr ⟨List.mem_cons_of_mem _ hmem.1, hmem.2⟩

/-- When no listed rate is above the request, the whole scan reduces to the
running-maximum accumulation. -/
theorem rate_scan_no_gt (given : Nat) :
    ∀ (l : List Nat) (st : Option Nat × Nat), (∀ r ∈ l, ¬ given < r) →
      l.foldl (rate_scan_step given) st =
        (st.1, l.foldl (fun m r => Nat.max r m) st.2) := by
  intro l
  induction l with
  | nil => intro st _; rfl
  | cons r t ih =>
    intro st h
    rw [List.foldl_cons, List.foldl_cons]
    have hr : ¬ given < r := h r (List.mem_cons_self _ _)
    have hstep : rate_scan_step given st r = (st.1, Nat.max r st.2) := by
      unfold rate_scan_step
      rw [if_neg (by simp [hr])]
    rw [hstep]
    exact ih _ (fun a ha => h a (List.mem_cons_of_mem _ ha))

/-- The running maximum is its seed or a list element, dominates the seed,
and dominates every list element. -/
theorem max_fold_spec :
    ∀ (l : List Nat) (a : Nat),
      (l.foldl (fun m r => Nat.max r m) a = a ∨
        l.foldl (fun m r => Nat.max r m) a ∈ l) ∧
      a ≤ l.foldl (fun m r => Nat.max r m) a ∧
      ∀ r ∈ l, r ≤ l.foldl (fun m r => Nat.max r m) a := by
  intro l
  induction l with
  | nil => intro a; exact ⟨Or.inl rfl, le_rfl, by simp⟩
  | cons r t ih =>
    intro a
    rw [List.foldl_cons]
    obtain ⟨hmem, hle, hall⟩ := ih (Nat.max r a)
    refine ⟨?_, ?_, ?_⟩
    · rcases hmem with he | hm
      · rcases Nat.le_total r a with hra | har
        · left
          have hmr : Nat.max r a = a := Nat.max_eq_right hra
          rw [he, hmr]
        · right
          have hmr : Nat.max r a = r := Nat.max_eq_left har
          rw [he, hmr]
          exact List.mem_cons_self _ _
      · exact Or.inr (List.mem_cons_of_mem _ hm)
    · exact le_trans (Nat.le_max_right r a) hle
    · intro x hx
      rcases List.mem_cons.mp hx with rfl | hx2
      · exact le_trans (Nat.le_max_left x a) hle
      · exact hall x hx2

/-- Characterization of resolve_rate for a non-zero request absent from the
list: the smallest listed rate above the request when one exists, else the
largest listed rate. -/
theorem resolve_rate_spec (rates : List Nat) (given : Nat)
    (h0 : given ≠ 0) (hm : given ∉ rates) :
    ((∃ r ∈ rates, given < r) →
      resolve_rate rates given ∈ rates ∧ given < resolve_rate rates given ∧
      ∀ r ∈ rates, given < r → resolve_rate rates given ≤ r) ∧
    ((∀ r ∈ rates, ¬ given < r) → rates ≠ [] →
      resolve_rate rates given ∈ rates ∧
      ∀ r ∈ rates, r ≤ resolve_rate rates given) := by
  unfold resolve_rate
  rw [if_neg h0, if_neg hm]
  constructor
  · rintro ⟨r0, hr0, hgr0⟩
    cases hfst : (rates.foldl (rate_scan_step given) (none, 0)).1 with
    | none =>
      exfalso
      obtain ⟨-, hno⟩ := rate_scan_fst_none given rates (none, 0) hfst
      exact hno r0 hr0 hgr0
    | some b =>
      simp only [hfst]
      rcases rate_scan_fst_mem given rates (none, 0) b hfst with habs | ⟨hbm, hgb⟩
      · exact absurd habs (by simp)
      · obtain ⟨hle, -⟩ := rate_scan_fst_le given rates (none, 0) b hfst
        exact ⟨hbm, hgb, hle⟩
  · intro hno hne
    have hfold := rate_scan_no_gt given rates (none, 0) hno
    simp only [hfold]
    obtain ⟨hm2, -, hall⟩ := max_fold_spec rates 0
    have hmem : rates.foldl (fun m r => Nat.max r m) 0 ∈ rates := by
      rcases hm2 with he | hmm
      · cases rates with
        | nil => exact absurd rfl hne
        | cons r t =>
          have h1 := hall r (List.mem_cons_self _ _)
          rw [he] at h1 ⊢
          have hr0 : r = 0 := Nat.le_zero.mp h1
          rw [← hr0]
          exact List.mem_cons_self _ _
      · exact hmm
    exact ⟨hmem, hall⟩

/-- C1: for a write handler that lists supported rates, a non-zero requested
rate that is not listed resolves to the smallest listed rate strictly above
the request, and to the largest listed rate when none is above. -/
theorem c1_rate_fallback (prec : Nat → Nat → Nat) (lb : Nat)
    (h : FormatHandler) (sig : SignalInfo) (enc : EncodingInfo)
    (rates : List Nat) (hw : h.write_rates = some rates)
    (h0 : sig.rate ≠ 0) (hm : sig.rate ∉ rates) :
    ((∃ r ∈ rates, sig.rate < r) →
      (set_output_format prec lb h sig enc).1.rate ∈ rates ∧
      sig.rate < (set_output_format prec lb h sig enc).1.rate ∧
      ∀ r ∈ rates, sig.rate < r →
        (set_output_format prec lb h sig enc).1.rate ≤ r) ∧
    ((∀ r ∈ rates, ¬ sig.rate < r) → rates ≠ [] →
      (set_output_format prec lb h sig enc).1.rate ∈ rates ∧
      ∀ r ∈ rates, r ≤ (set_output_format prec lb h sig enc).1.rate) := by
  have hr : (set_output_format prec lb h sig enc).1.rate =
      resolve_rate rates sig.rate := by
    rw [set_output_format_rate, hw]
  rw [hr]
  exact resolve_rate_spec rates sig.rate h0 hm

/-- Witness for c1_rate_fallback on the spec's example list: 50000 resolves
to 48000 (largest, none greater) and 40000 to 44100 (smallest greater). -/
theorem c1_rate_fallback_witness :
    (set_output_format (fun _ s => s) 0 ex_rates_handler
      ⟨50000, 2, 16⟩ ex_enc).1.rate ∈ [8000, 44100, 48000] ∧
    (set_output_format (fun _ s => s) 0 ex_rates_handler
      ⟨50000, 2, 16⟩ ex_enc).1.rate = 48000 ∧
    (set_output_format (fun _ s => s) 0 ex_rates_handler
      ⟨40000, 2, 16⟩ ex_enc).1.rate ∈ [8000, 44100, 48000] ∧
    (set_output_format (fun _ s => s) 0 ex_rates_handler
      ⟨40000, 2, 16⟩ ex_enc).1.rate = 44100 := by
  have h50 := (c1_rate_fallback (fun _ s => s) 0 ex_rates_handler
    ⟨50000, 2, 16⟩ ex_enc [8000, 44100, 48000] rfl (by decide) (by decide)).2
    (by decide) (by decide)
  have h40 := (c1_rate_fallback (fun _ s => s) 0 ex_rates_handler
    ⟨40000, 2, 16⟩ ex_enc [8000, 44100, 48000] rfl (by decide) (by decide)).1
    ⟨44100, by decide, by decide⟩
  exact ⟨h50.1, by decide, h40.1, by decide⟩

/-- A literal match at offset 0 pins down the prefix of the data. -/
theorem matchAt_zero_take (data e : List Nat) (h : matchAt data 0 e = true) :
    data.take e.length = e := by
  simpa [matchAt] using h

/-- Two different literals cannot both match at offset 0 when one is a
prefix-length refutation of the other. -/
theorem matchAt_zero_conflict (data d e : List Nat)
    (hd : data.take d.length = d) (hle : d.length ≤ e.length)
    (hne : e.take d.length ≠ d) : matchAt data 0 e = false := by
  cases hmb : matchAt data 0 e
  · rfl
  · exfalso
    have he := matchAt_zero_take data e hmb
    have hmin : min d.length e.length = d.length := min_eq_left hle
    have h2 : e.take d.length = data.take d.length := by
      rw [← he, List.take_take, hmin]
    exact hne (by rw [h2, hd])

/-- A rule whose primary literal fails to match does not fire. -/
theorem rule_matches_false_of_d1 (data : List Nat) (r : MagicRule)
    (h : matchAt data r.p1 r.d1 = false) : rule_matches data r = false := by
  simp [rule_matches, h]

/-- A rule whose secondary literal fails to match does not fire. -/
theorem rule_matches_false_of_d2 (data : List Nat) (r : MagicRule)
    (h : matchAt data r.p2 r.d2 = false) : rule_matches data r = false := by
  simp [rule_matches, h]

/-- find? returns the head of the suffix once everything before it fails. -/
theorem find_first_match (p : MagicRule → Bool) (pre : List MagicRule)
    (r : MagicRule) (post : List MagicRule)
    (hpre : ∀ a ∈ pre, p a = false) (hr : p r = true) :
    List.find? p (pre ++ r :: post) = some r := by
  induction pre with
  | nil =>
    simp only [List.nil_append]
    rw [List.find?_cons_of_pos _ hr]
  | cons a t ih =>
    have ha : p a = false := hpre a (List.mem_cons_self _ _)
    rw [List.cons_append, List.find?_cons_of_neg _ (by simp [ha])]
    exact ih (fun b hb => hpre b (List.mem_cons_of_mem _ hb))

set_option maxRecDepth 100000 in
/-- Counterexample to C6: an input that begins RIFF..WAVE but also carries
the hcom signature (FSSD at offset 65, HCOM at offset 128) is identified as
hcom, because the hcom rule precedes the wav rule in the table. -/
theorem c6_counterexample :
    matchAt hcom_trap 0 [82, 73, 70, 70] = true ∧
    matchAt hcom_trap 8 [87, 65, 86, 69] = true ∧
    12 ≤ hcom_trap.length ∧
    detect_magic hcom_trap none = some "hcom" ∧
    detect_magic hcom_trap none ≠ some "wav" := by
  decide

/-- C6 as amended: rules are evaluated in table order and the first rule
whose primary and secondary ranges both match determines the result; an
input starting RIFF, any 4 bytes, then WAVE at offset 8 is identified as
wav, and one starting FORM with AIFF at offset 8 as aiff (and not wav),
provided the earlier hcom rule does not also match the input. -/
theorem c6_detect_magic (data : List Nat) (ext : Option String) :
    (12 ≤ data.length →
      matchAt data 0 [82, 73, 70, 70] = true →
      matchAt data 8 [87, 65, 86, 69] = true →
      rule_matches data rule_hcom = false →
      detect_magic data ext = some "wav") ∧
    (12 ≤ data.length →
      matchAt data 0 [70, 79, 82, 77] = true →
      matchAt data 8 [65, 73, 70, 70] = true →
      rule_matches data rule_hcom = false →
      detect_magic data ext = some "aiff" ∧
        (some "aiff" : Option String) ≠ some "wav") ∧
    (∀ (pre post : List MagicRule) (r : MagicRule),
      magic_table = pre ++ r :: post →
      rule_matches data r = true →
      (∀ a ∈ pre, rule_matches data a = false) →
      detect_magic data ext = some r.name) := by
  have hgen : ∀ (pre post : List MagicRule) (r : MagicRule),
      magic_table = pre ++ r :: post →
      rule_matches data r = true →
      (∀ a ∈ pre, rule_matches data a = false) →
      detect_magic data ext = some r.name := by
    intro pre post r htab hr hpre
    unfold detect_magic
    rw [htab, find_first_match _ pre r post hpre hr]
  refine ⟨?_, ?_, hgen⟩
  · intro hlen hR hW hhcom
    have hd := matchAt_zero_take data _ hR
    have hwav : rule_matches data rule_wav_riff = true := by
      have hb : rule_wav_riff.p1 + rule_wav_riff.d1.length ≤ data.length := by
        simpa using hlen
      unfold rule_matches
      rw [if_pos hb]
      simp only [rule_wav_riff]
      rw [hW, hR]
      rfl
    refine hgen
      [rule_voc, rule_smp, rule_wve, rule_amr_wb, rule_prc, rule_sph,
       rule_amr_nb, rule_txw, rule_sndt, rule_vorbis, rule_speex, rule_hcom]
      [rule_wav_rifx, rule_aiff, rule_aifc, rule_8svx, rule_maud, rule_xa1,
       rule_xa2, rule_xa3, rule_au1, rule_au2, rule_au3, rule_au4, rule_flac,
       rule_avr, rule_caf, rule_paf, rule_sf1, rule_sf2, rule_sf3, rule_sf4,
       rule_sf5, rule_sf6, rule_sf7]
      rule_wav_riff rfl hwav ?_
    intro a ha
    fin_cases ha
    · exact rule_matches_false_of_d1 _ _
        (matchAt_zero_conflict data _ _ hd (by decide) (by decide))
    · exact rule_matches_false_of_d1 _ _
        (matchAt_zero_conflict data _ _ hd (by decide) (by decide))
    · exact rule_matches_false_of_d1 _ _
        (matchAt_zero_conflict data _ _ hd (by decide) (by decide))
    · exact rule_matches_false_of_d1 _ _
        (matchAt_zero_conflict data _ _ hd (by decide) (by decide))
    · exact rule_matches_false_of_d1 _ _
        (matchAt_zero_conflict data _ _ hd (by decide) (by decide))
    · exact rule_matches_false_of_d1 _ _
        (matchAt_zero_conflict data _ _ hd (by decide) (by decide))
    · exact rule_matches_false_of_d1 _ _
        (matchAt_zero_conflict data _ _ hd (by decide) (by decide))
    · exact rule_matches_false_of_d1 _ _
        (matchAt_zero_conflict data _ _ hd (by decide) (by decide))
    · exact rule_matches_false_of_d1 _ _
        (matchAt_zero_conflict data _ _ hd (by decide) (by decide))
    · exact rule_matches_false_of_d2 _ _
        (matchAt_zero_conflict data _ _ hd (by decide) (by decide))
    · exact rule_matches_false_of_d2 _ _
        (matchAt_zero_conflict data _ _ hd (by decide) (by decide))
    · exact hhcom
  · intro hlen hF hA hhcom
    have hd := matchAt_zero_take data _ hF
    have haiff : rule_matches data rule_aiff = true := by
      have hb : rule_aiff.p1 + rule_aiff.d1.length ≤ data.length := by
        simpa using hlen
      unfold rule_matches
      rw [if_pos hb]
      simp only [rule_aiff]
      rw [hA, hF]
      rfl
    refine ⟨hgen
      [rule_voc, rule_smp, rule_wve, rule_amr_wb, rule_prc, rule_sph,
       rule_amr_nb, rule_txw, rule_sndt, rule_vorbis, rule_speex, rule_hcom,
       rule_wav_riff, rule_wav_rifx]
      [rule_aifc, rule_8svx, rule_maud, rule_xa1, rule_xa2, rule_xa3,
       rule_au1, rule_au2, rule_au3, rule_au4, rule_flac, rule_avr, rule_caf,
       rule_paf, rule_sf1, rule_sf2, rule_sf3, rule_sf4, rule_sf5, rule_sf6,
       rule_sf7]
      rule_aiff rfl haiff ?_, by decide⟩
    intro a ha
    fin_cases ha
    · exact rule_matches_false_of_d1 _ _
        (matchAt_zero_conflict data _ _ hd (by decide) (by decide))
    · exact rule_matches_false_of_d1 _ _
        (matchAt_zero_conflict data _ _ hd (by decide) (by decide))
    · exact rule_matches_false_of_d1 _ _
        (matchAt_zero_conflict data _ _ hd (by decide) (by decide))
    · exact rule_matches_false_of_d1 _ _
        (matchAt_zero_conflict data _ _ hd (by decide) (by decide))
    · exact rule_matches_false_of_d1 _ _
        (matchAt_zero_conflict data _ _ hd (by decide) (by decide))
    · exact rule_matches_false_of_d1 _ _
        (matchAt_zero_conflict data _ _ hd (by decide) (by decide))
    · exact rule_matches_false_of_d1 _ _
        (matchAt_zero_conflict data _ _ hd (by decide) (by decide))
    · exact rule_matches_false_of_d1 _ _
        (matchAt_zero_conflict data _ _ hd (by decide) (by decide))
    · exact rule_matches_false_of_d1 _ _
        (matchAt_zero_conflict data _ _ hd (by decide) (by decide))
    · exact rule_matches_false_of_d2 _ _
        (matchAt_zero_conflict data _ _ hd (by decide) (by decide))
    · exact rule_matches_false_of_d2 _ _
        (matchAt_zero_conflict data _ _ hd (by decide) (by decide))
    · exact hhcom
    · exact rule_matches_false_of_d2 _ _
        (matchAt_zero_conflict data _ _ hd (by decide) (by decide))
    · exact rule_matches_false_of_d2 _ _
        (matchAt_zero_conflict data _ _ hd (by decide) (by decide))

/-- Witness for c6_detect_magic on a minimal 12-byte RIFF/WAVE header and a
minimal FORM/AIFF header. -/
theorem c6_detect_magic_witness :
    detect_magic [82, 73, 70, 70, 1, 2, 3, 4, 87, 65, 86, 69] none =
      some "wav" ∧
    detect_magic [70, 79, 82, 77, 1, 2, 3, 4, 65, 73, 70, 70] none =
      some "aiff" := by
  have h1 := (c6_detect_magic [82, 73, 70, 70, 1, 2, 3, 4, 87, 65, 86, 69]
    none).1 (by decide) (by decide) (by decide) (by decide)
  have h2 := (c6_detect_magic [70, 79, 82, 77, 1, 2, 3, 4, 65, 73, 70, 70]
    none).2.1 (by decide) (by decide) (by decide) (by decide)
  exact ⟨h1, h2.1⟩

/-- A little-endian image has as many bytes as requested. -/
theorem bytesOfWordLE_length : ∀ (n w : Nat), (bytesOfWordLE n w).length = n := by
  intro n
  induction n with
  | zero => intro w; rfl
  | succ n ih =>
    intro w
    rw [bytesOfWordLE]
    simp [ih]

/-- Every byte of a little-endian image is a byte value. -/
theorem bytesOfWordLE_lt : ∀ (n w : Nat), ∀ b ∈ bytesOfWordLE n w, b < 256 := by
  intro n
  induction n with
  | zero => intro w b hb; simp [bytesOfWordLE] at hb
  | succ n ih =>
    intro w b hb
    rw [bytesOfWordLE] at hb
    rcases List.mem_cons.mp hb with rfl | hb2
    · exact Nat.mod_lt _ (by omega)
    · exact ih _ b hb2

/-- Reassembling a little-endian image gives back the word. -/
theorem wordOfBytesLE_bytesOfWordLE : ∀ (n w : Nat), w < 256 ^ n →
    wordOfBytesLE (bytesOfWordLE n w) = w := by
  intro n
  induction n with
  | zero =>
    intro w h
    have : w = 0 := by simpa using h
    simp [this, bytesOfWordLE, wordOfBytesLE]
  | succ n ih =>
    intro w h
    have hd : w / 256 < 256 ^ n := by
      apply Nat.div_lt_of_lt_mul
      calc w < 256 ^ (n + 1) := h
        _ = 256 * 256 ^ n := by ring
    rw [bytesOfWordLE, wordOfBytesLE, ih _ hd]
    omega

/-- Serializing a reassembled byte list gives back the list. -/
theorem bytesOfWordLE_wordOfBytesLE : ∀ (l : List Nat), (∀ b ∈ l, b < 256) →
    bytesOfWordLE l.length (wordOfBytesLE l) = l := by
  intro l
  induction l with
  | nil => intro _; rfl
  | cons b bs ih =>
    intro h
    have hb : b < 256 := h b (List.mem_cons_self _ _)
    rw [List.length_cons, wordOfBytesLE, bytesOfWordLE]
    have e1 : (b + 256 * wordOfBytesLE bs) % 256 = b := by omega
    have e2 : (b + 256 * wordOfBytesLE bs) / 256 = wordOfBytesLE bs := by omega
    rw [e1, e2, ih (fun c hc => h c (List.mem_cons_of_mem _ hc))]

/-- A word's value is bounded by its byte count. -/
theorem wordOfBytesLE_lt : ∀ (l : List Nat), (∀ b ∈ l, b < 256) →
    wordOfBytesLE l < 256 ^ l.length := by
  intro l
  induction l with
  | nil => intro _; simp [wordOfBytesLE]
  | cons b bs ih =>
    intro h
    have hb : b < 256 := h b (List.mem_cons_self _ _)
    have hbs := ih (fun c hc => h c (List.mem_cons_of_mem _ hc))
    rw [wordOfBytesLE, List.length_cons]
    calc b + 256 * wordOfBytesLE bs
        ≤ 255 + 256 * wordOfBytesLE bs := by omega
      _ < 256 * (wordOfBytesLE bs + 1) := by omega
      _ ≤ 256 * 256 ^ bs.length := by
          have : wordOfBytesLE bs + 1 ≤ 256 ^ bs.length := hbs
          exact Nat.mul_le_mul_left _ this
      _ = 256 ^ (bs.length + 1) := by ring

/-- Byte reversal keeps the word inside its width. -/
theorem byte_reverse_lt (n w : Nat) : byte_reverse n w < 256 ^ n := by
  unfold byte_reverse
  have h := wordOfBytesLE_lt ((bytesOfWordLE n w).reverse)
    (fun b hb => bytesOfWordLE_lt n w b (List.mem_reverse.mp hb))
  rwa [List.length_reverse, bytesOfWordLE_length] at h

/-- Byte reversal of an in-range word is an involution. -/
theorem byte_reverse_byte_reverse (n w : Nat) (h : w < 256 ^ n) :
    byte_reverse n (byte_reverse n w) = w := by
  unfold byte_reverse
  have hlen : ((bytesOfWordLE n w).reverse).length = n := by
    rw [List.length_reverse, bytesOfWordLE_length]
  have hbytes : ∀ b ∈ (bytesOfWordLE n w).reverse, b < 256 :=
    fun b hb => bytesOfWordLE_lt n w b (List.mem_reverse.mp hb)
  have hmid := bytesOfWordLE_wordOfBytesLE ((bytesOfWordLE n w).reverse) hbytes
  rw [hlen] at hmid
  rw [hmid, List.reverse_reverse, wordOfBytesLE_bytesOfWordLE n w h]

/-- Deserializing after serializing a memory image recovers the word. -/
theorem wordFromBytes_wordToBytes (big : Bool) (n w : Nat) (h : w < 256 ^ n) :
    wordFromBytes big (wordToBytes big n w) = w := by
  cases big <;>
    simp [wordFromBytes, wordToBytes, List.reverse_reverse,
      wordOfBytesLE_bytesOfWordLE n w h]

/-- A serialized memory image has as many bytes as requested. -/
theorem wordToBytes_length (big : Bool) (n w : Nat) :
    (wordToBytes big n w).length = n := by
  cases big <;> simp [wordToBytes, bytesOfWordLE_length]

/-- Reading back whole elements after writing them recovers the buffer,
given fixed-size element images and an element-level round trip. -/
theorem read_buf_write_buf (enc : Nat → List Nat) (dec : List Nat → Nat)
    (size : Nat) (hsz : 0 < size) (hlen : ∀ v, (enc v).length = size) :
    ∀ (buf : List Nat), (∀ v ∈ buf, dec (enc v) = v) →
      read_buf dec size (write_buf enc buf) = buf := by
  intro buf
  induction buf with
  | nil =>
    intro _
    rw [write_buf, read_buf]
    rw [dif_neg (by simp; omega)]
  | cons v vs ih =>
    intro hgood
    rw [write_buf, read_buf]
    have hl : (enc v).length = size := hlen v
    have hcond : 0 < size ∧ size ≤ (enc v ++ write_buf enc vs).length := by
      refine ⟨hsz, ?_⟩
      rw [List.length_append, hl]
      omega
    rw [dif_pos hcond]
    have htake : (enc v ++ write_buf enc vs).take size = enc v := by
      rw [← hl]
      exact List.take_left _ _
    have hdrop : (enc v ++ write_buf enc vs).drop size = write_buf enc vs := by
      rw [← hl]
      exact List.drop_left _ _
    rw [htake, hdrop, hgood v (List.mem_cons_self _ _),
      ih (fun w hw => hgood w (List.mem_cons_of_mem _ hw))]

set_option maxRecDepth 100000 in
/-- TWIDDLE_BYTE applied twice gives back the byte, for every combination of
bit- and nibble-reversal. -/
theorem twiddle_byte_involutive : ∀ (rbits rnibs : Bool) (b : Fin 256),
    twiddle_byte rbits rnibs (twiddle_byte rbits rnibs b.val) = b.val := by
  decide

/-- An element of any word width survives machine-order serialization with an
optional byte swap on both sides. -/
theorem word_elem_roundtrip (big rb : Bool) (n v : Nat) (hv : v < 256 ^ n) :
    (if rb then byte_reverse n (wordFromBytes big
        (wordToBytes big n (byte_reverse n v)))
     else wordFromBytes big (wordToBytes big n v)) = v := by
  cases rb
  · simp only [if_neg Bool.false_ne_true]
    exact wordFromBytes_wordToBytes big n v hv
  · simp only [if_pos rfl]
    rw [wordFromBytes_wordToBytes big n _ (byte_reverse_lt n v)]
    exact byte_reverse_byte_reverse n v hv

/-- sox_unpack3 undoes sox_pack3 on 24-bit values, under either byte-order
selection. -/
theorem sox_unpack3_sox_pack3 (q : Bool) (v : Nat) (h : v < 16777216) :
    sox_unpack3 q (sox_pack3 q v) = v := by
  cases q <;> simp [sox_pack3, sox_unpack3] <;> omega

/-- Byte-wide buffers round-trip under any bit/nibble order policy. -/
theorem sox_b_buf_roundtrip (rbits rnibs : Bool) (buf : List Nat)
    (h : ∀ v ∈ buf, v < 256) :
    sox_read_b_buf rbits rnibs (sox_write_b_buf rbits rnibs buf) = buf := by
  unfold sox_read_b_buf sox_write_b_buf
  apply read_buf_write_buf (fun v => [twiddle_byte rbits rnibs v])
    (fun p => twiddle_byte rbits rnibs (p.headD 0)) 1 (by omega) (fun v => rfl)
  intro v hv
  simpa using twiddle_byte_involutive rbits rnibs ⟨v, h v hv⟩

/-- 16-bit buffers round-trip under both byte orders. -/
theorem sox_w_buf_roundtrip (big rb : Bool) (buf : List Nat)
    (h : ∀ v ∈ buf, v < 65536) :
    sox_read_w_buf big rb (sox_write_w_buf big rb buf) = buf := by
  unfold sox_read_w_buf sox_write_w_buf
  apply read_buf_write_buf _ _ 2 (by omega) (fun v => wordToBytes_length big 2 _)
  intro v hv
  have hx := word_elem_roundtrip big rb 2 v (h v hv)
  cases rb
  · simpa [sox_swapw] using hx
  · simpa [sox_swapw] using hx

/-- 24-bit buffers round-trip under either byte-order selection. -/
theorem sox_3_buf_roundtrip (q : Bool) (buf : List Nat)
    (h : ∀ v ∈ buf, v < 16777216) :
    sox_read_3_buf q (sox_write_3_buf q buf) = buf := by
  unfold sox_read_3_buf sox_write_3_buf
  apply read_buf_write_buf _ _ 3 (by omega)
    (fun v => by cases q <;> simp [sox_pack3])
  intro v hv
  exact sox_unpack3_sox_pack3 q v (h v hv)

/-- 32-bit buffers round-trip under both byte orders. -/
theorem sox_dw_buf_roundtrip (big rb : Bool) (buf : List Nat)
    (h : ∀ v ∈ buf, v < 4294967296) :
    sox_read_dw_buf big rb (sox_write_dw_buf big rb buf) = buf := by
  unfold sox_read_dw_buf sox_write_dw_buf
  apply read_buf_write_buf _ _ 4 (by omega) (fun v => wordToBytes_length big 4 _)
  intro v hv
  have hx := word_elem_roundtrip big rb 4 v (h v hv)
  cases rb
  · simpa [sox_swapdw] using hx
  · simpa [sox_swapdw] using hx

/-- Float buffers (32-bit representations) round-trip under both byte
orders. -/
theorem sox_f_buf_roundtrip (big rb : Bool) (buf : List Nat)
    (h : ∀ v ∈ buf, v < 4294967296) :
    sox_read_f_buf big rb (sox_write_f_buf big rb buf) = buf := by
  unfold sox_read_f_buf sox_write_f_buf
  apply read_buf_write_buf _ _ 4 (by omega) (fun v => wordToBytes_length big 4 _)
  intro v hv
  have hx := word_elem_roundtrip big rb 4 v (h v hv)
  cases rb
  · simpa [sox_swapdw] using hx
  · simpa [sox_swapdw] using hx

/-- Double buffers (64-bit representations) round-trip under both byte
orders. -/
theorem sox_df_buf_roundtrip (big rb : Bool) (buf : List Nat)
    (h : ∀ v ∈ buf, v < 18446744073709551616) :
    sox_read_df_buf big rb (sox_write_df_buf big rb buf) = buf := by
  unfold sox_read_df_buf sox_write_df_buf
  apply read_buf_write_buf _ _ 8 (by omega) (fun v => wordToBytes_length big 8 _)
  intro v hv
  have hx := word_elem_roundtrip big rb 8 v (h v hv)
  cases rb
  · simpa [sox_swapdf] using hx
  · simpa [sox_swapdf] using hx

/-- C8: writing element sequences through each typed write primitive and
reading the bytes back with the matching read primitive under the same
resolved order policy reproduces the values exactly, for all element widths
(1, 2, 3, 4, float-as-4, 8 bytes), both byte orders and both bit/nibble
reversal settings; in particular sox_unpack3 undoes sox_pack3 on every
24-bit value under either byte-order selection. -/
theorem c8_roundtrip (big rb rbits rnibs : Bool)
    (b1 b2 b3 b4 bf b8 : List Nat)
    (h1 : ∀ v ∈ b1, v < 256) (h2 : ∀ v ∈ b2, v < 65536)
    (h3 : ∀ v ∈ b3, v < 16777216) (h4 : ∀ v ∈ b4, v < 4294967296)
    (hf : ∀ v ∈ bf, v < 4294967296)
    (h8 : ∀ v ∈ b8, v < 18446744073709551616) :
    sox_read_b_buf rbits rnibs (sox_write_b_buf rbits rnibs b1) = b1 ∧
    sox_read_w_buf big rb (sox_write_w_buf big rb b2) = b2 ∧
    sox_read_3_buf (rb == big) (sox_write_3_buf (rb == big) b3) = b3 ∧
    sox_read_dw_buf big rb (sox_write_dw_buf big rb b4) = b4 ∧
    sox_read_f_buf big rb (sox_write_f_buf big rb bf) = bf ∧
    sox_read_df_buf big rb (sox_write_df_buf big rb b8) = b8 ∧
    ∀ v < 16777216, ∀ q : Bool, sox_unpack3 q (sox_pack3 q v) = v :=
  ⟨sox_b_buf_roundtrip rbits rnibs b1 h1,
   sox_w_buf_roundtrip big rb b2 h2,
   sox_3_buf_roundtrip (rb == big) b3 h3,
   sox_dw_buf_roundtrip big rb b4 h4,
   sox_f_buf_roundtrip big rb bf hf,
   sox_df_buf_roundtrip big rb b8 h8,
   fun v hv q => sox_unpack3_sox_pack3 q v hv⟩

/-- Witness for c8_roundtrip on concrete buffers in every width. -/
theorem c8_roundtrip_witness :
    sox_read_b_buf true true (sox_write_b_buf true true [0, 1, 171, 255]) =
      [0, 1, 171, 255] ∧
    sox_read_w_buf false true (sox_write_w_buf false true [0, 65535, 4660]) =
      [0, 65535, 4660] ∧
    sox_read_3_buf (true == false)
      (sox_write_3_buf (true == false) [0, 16777215, 1193046]) =
      [0, 16777215, 1193046] ∧
    sox_read_dw_buf false true
      (sox_write_dw_buf false true [305419896, 4294967295]) =
      [305419896, 4294967295] ∧
    sox_read_f_buf false true (sox_write_f_buf false true [1078530011]) =
      [1078530011] ∧
    sox_read_df_buf false true
      (sox_write_df_buf false true [4614256656552045848, 18446744073709551615]) =
      [4614256656552045848, 18446744073709551615] ∧
    sox_unpack3 true (sox_pack3 true 1193046) = 1193046 := by
  have h := c8_roundtrip false true true true
    [0, 1, 171, 255] [0, 65535, 4660] [0, 16777215, 1193046]
    [305419896, 4294967295] [1078530011]
    [4614256656552045848, 18446744073709551615]
    (by decide) (by decide) (by decide) (by decide) (by decide) (by decide)
  exact ⟨h.1, h.2.1, h.2.2.1, h.2.2.2.1, h.2.2.2.2.1, h.2.2.2.2.2.1,
    h.2.2.2.2.2.2 1193046 (by decide) true⟩

end Soxio
